import Mathlib

/-!
# NEXORA statistical-arbitrage engine: a shallow embedding

This file embeds, over exact rational arithmetic, the parts of the NEXORA
repository that the verified claims are about:

* `strategies/statistical_arbitrage.py` — `StatisticalArbitrageStrategy`
  (`_rolling_beta`, `run_backtest`: rolling hedge ratio, spread z-score,
  rolling cointegration mask, position state machine, performance metrics);
* `strategies/statistical_arbitrage_cluster.py` — `StatArbCluster`
  (`_find_cointegrated_groups`, `_cluster_score`, `evaluate_cluster`);
* `ai/cointegration/johansen_module.py` — `JohansenCointegration.rank`.

Modelling conventions:

* Machine floats are idealised as `ℚ`.  A float that can be NaN is an
  `Option ℚ` (`none` = NaN).  A z-score, whose finite values involve a square
  root (it divides by a rolling standard deviation `√variance`), is a
  `PFloat`: the finite case stores the pair `(num, var)` representing the real
  number `num / √var` with `var > 0`, so that the comparisons against rational
  thresholds performed by the source are exactly decidable.
* External statsmodels routines (`coint`, `coint_johansen`, `OLS`) are the
  sources' collaborators: `coint` enters as an oracle `pv : ℕ → ℚ` giving the
  p-value of the trailing-window test ending at each index, `coint_johansen`
  as a `JohansenResult` record of its output arrays, and the OLS slope is the
  textbook closed form `Σ(x-x̄)(y-ȳ) / Σ(x-x̄)²` that
  `OLS(y, add_constant(x)).fit().params[1]` computes on a non-degenerate
  window.
* Elementwise pandas/numpy binary operations between arrays raise `ValueError`
  when the operand lengths differ (neither `(n-1,)` vs `(n,)` broadcasting nor
  index alignment applies to a `Series`-with-`ndarray` operation).  They are
  embedded as `aligned*` operations returning `Option`, `none` being the
  raised error; a raised Python exception that propagates out of a function is
  likewise `none` at its call site.
-/

/-- Float values taken by the z-score series: NaN, `+inf`, `-inf`, or the
finite value `num / √var` (invariant: `var > 0` wherever produced). -/
inductive PFloat where
  | nan : PFloat
  | posInf : PFloat
  | negInf : PFloat
  | fin (num : ℚ) (var : ℚ) : PFloat
deriving DecidableEq

namespace PFloat

/-- `z < t` for a rational threshold `t` (IEEE semantics: NaN compares false).
For a finite `num/√var` with `var > 0`: `num/√var < t ↔ num < t·√var`,
decided by sign analysis and squaring. -/
def ltQ : PFloat → ℚ → Bool
  | nan, _ => false
  | posInf, _ => false
  | negInf, _ => true
  | fin a v, t =>
      if 0 ≤ t then (a < 0) || (0 ≤ a && a ^ 2 < t ^ 2 * v)
      else (a < 0) && (t ^ 2 * v < a ^ 2)

/-- `z > t` for a rational threshold `t` (NaN compares false). -/
def gtQ : PFloat → ℚ → Bool
  | nan, _ => false
  | posInf, _ => true
  | negInf, _ => false
  | fin a v, t =>
      if t ≤ 0 then (0 < a) || (a ≤ 0 && a ^ 2 < t ^ 2 * v)
      else (0 < a) && (t ^ 2 * v < a ^ 2)

/-- `|z| < t` (NaN and ±inf compare false): `-t < z ∧ z < t`. -/
def absLtQ (z : PFloat) (t : ℚ) : Bool :=
  z.gtQ (-t) && z.ltQ t

end PFloat

/-! ## List utilities shared by the embedded pipeline -/

/-- Forward-fill worker: each NaN (`none`) entry takes the most recent
non-NaN value seen so far (the carry). -/
def ffillGo {α : Type} (carry : Option α) : List (Option α) → List (Option α)
  | [] => []
  | none :: rest => carry :: ffillGo carry rest
  | some a :: rest => some a :: ffillGo (some a) rest

/-- `Series.ffill()`: propagate the last known value forward through gaps. -/
def ffillO {α : Type} (l : List (Option α)) : List (Option α) :=
  ffillGo none l

/-- `Series.bfill()`: any still-undefined entry takes the next later defined
value; realised as a forward fill of the reversed list. -/
def bfillO {α : Type} (l : List (Option α)) : List (Option α) :=
  (ffillGo none l.reverse).reverse

/-- NaN-propagating float addition/subtraction/multiplication. -/
def oadd (a b : Option ℚ) : Option ℚ := do pure ((← a) + (← b))
def osub (a b : Option ℚ) : Option ℚ := do pure ((← a) - (← b))
def omul (a b : Option ℚ) : Option ℚ := do pure ((← a) * (← b))

/-- Elementwise binary operation between two pandas/numpy 1-d operands:
raises (`none`) unless the lengths agree, else combines elementwise. -/
def alignedOp {α β γ : Type} (f : α → β → γ) (a : List α) (b : List β) :
    Option (List γ) :=
  if a.length = b.length then some (List.zipWith f a b) else none

/-- Elementwise `&` between a boolean Series and a boolean ndarray. -/
def alignedAnd (a b : List Bool) : Option (List Bool) :=
  alignedOp (· && ·) a b

/-- Elementwise `|` between a boolean Series and a boolean ndarray. -/
def alignedOr (a b : List Bool) : Option (List Bool) :=
  alignedOp (· || ·) a b

/-- Arithmetic between a float Series `s` (left operand) and a float ndarray
`o` (right operand).  pandas routes it through numpy broadcasting and then
rebuilds a Series over `s`'s index, so it succeeds exactly when the lengths
agree (elementwise) or the ndarray has length 1 (numpy size-1 broadcast over
the Series, the result keeping `s`'s length — also when `s` is empty); any
other shape pair raises (`none`), either in numpy's broadcast or in the
Series construction when the broadcast result no longer matches `s`'s
index. -/
def seriesOpArray (f : Option ℚ → Option ℚ → Option ℚ)
    (s o : List (Option ℚ)) : Option (List (Option ℚ)) :=
  if s.length = o.length then some (List.zipWith f s o)
  else if o.length = 1 then some (s.map fun v => f v (o.getD 0 none))
  else none

/-- Arithmetic between a float ndarray `o` (left operand) and a float Series
`s` (right operand): numpy defers to the Series' reflected method, so the
same rule as `seriesOpArray` applies with the result indexed by `s` —
success exactly when the lengths agree or the ndarray has length 1. -/
def arrayOpSeries (f : Option ℚ → Option ℚ → Option ℚ)
    (o s : List (Option ℚ)) : Option (List (Option ℚ)) :=
  if o.length = s.length then some (List.zipWith f o s)
  else if o.length = 1 then some (s.map fun v => f (o.getD 0 none) v)
  else none

/-- Mean of a list of rationals (`sum/len`; unused on empty lists). -/
def meanQ (l : List ℚ) : ℚ := l.sum / l.length

/-- `some` the list of values if no entry is NaN, else `none`. -/
def allSomeList : List (Option ℚ) → Option (List ℚ)
  | [] => some []
  | none :: _ => none
  | some q :: rest => (allSomeList rest).map (q :: ·)

/-- Rolling-window mean à la pandas: NaN if any window entry is NaN. -/
def meanOpt (l : List (Option ℚ)) : Option ℚ :=
  (allSomeList l).map meanQ

/-- Rolling-window sample variance (`ddof=1`) à la pandas: NaN if any window
entry is NaN or the window has fewer than two entries.  The rolling standard
deviation of the source is `√` of this value; the source and its claims only
ever test it against `0`, and `std = 0 ↔ variance = 0`. -/
def varOpt (l : List (Option ℚ)) : Option ℚ :=
  (allSomeList l).bind fun v =>
    if v.length ≤ 1 then none
    else some (((v.map fun q => (q - meanQ v) ^ 2).sum) / ((v.length - 1 : ℕ) : ℚ))

/-- `np.nanmean`: mean over the non-NaN entries, NaN if none exist. -/
def nanmeanQ (l : List (Option ℚ)) : Option ℚ :=
  let d := l.filterMap id
  if d.length = 0 then none else some (d.sum / d.length)

/-- Python's `round(q, d)` idealised as round-to-nearest at `d` decimal
digits (the source never hits a half-ulp tie, where Python would round to
even). -/
def roundTo (d : ℕ) (q : ℚ) : ℚ :=
  (round (q * (10 : ℚ) ^ d) : ℤ) / (10 : ℚ) ^ d

/-! ## `StatisticalArbitrageStrategy` (strategies/statistical_arbitrage.py) -/

/-- The strategy parameters in effect for one `run_backtest` call: the
constructor defaults of `StatisticalArbitrageStrategy.__init__` overridden by
the `params` dict, already merged (`params.get(k, self.k)`). -/
structure SAConfig where
  lookback : ℕ := 100
  entry_z : ℚ := 2
  exit_z : ℚ := 1 / 2
  coint_pval : ℚ := 1 / 20
  min_valid : ℕ := 50
deriving DecidableEq

/-- OLS slope of `y` on `x` with intercept, the closed form of
`OLS(y, add_constant(x)).fit().params[1]` on a window. -/
def olsSlope (xs ys : List ℚ) : ℚ :=
  let mx := meanQ xs
  let my := meanQ ys
  ((List.zipWith (fun a b => (a - mx) * (b - my)) xs ys).sum) /
    ((xs.map fun a => (a - mx) ^ 2).sum)

/-- `_rolling_beta`: `betas = np.full(len(x), nan)`, then for
`i in range(window, len(x))` the OLS slope over the window `[i-window, i)`;
`none` is a NaN entry. -/
def rollingBeta (x y : List ℚ) (window : ℕ) : List (Option ℚ) :=
  (List.range x.length).map fun i =>
    if i < window then none
    else some (olsSlope ((x.drop (i - window)).take window)
                        ((y.drop (i - window)).take window))

/-- The hedge-ratio series of `run_backtest`:
`self._rolling_beta(x, y, lookback).ffill().bfill()`. -/
def betaFilled (x y : List ℚ) (window : ℕ) : List (Option ℚ) :=
  bfillO (ffillO (rollingBeta x y window))

/-- `spread = y - beta * x` (a NaN beta makes a NaN spread entry). -/
def spreadList (beta : List (Option ℚ)) (x y : List ℚ) : List (Option ℚ) :=
  List.zipWith (fun ob xy => ob.map fun b => xy.2 - b * xy.1) beta (x.zip y)

/-- The trailing window of length `w` ending at index `i` inclusive, as used
by `pd.Series.rolling(w)` (empty-of-meaning when the window is not full:
callers guard with `i + 1 < w`). -/
def rollWindow (l : List (Option ℚ)) (w i : ℕ) : List (Option ℚ) :=
  (l.drop (i + 1 - w)).take w

/-- `spread.rolling(lookback).mean()` at index `i`. -/
def rollingMeanAt (l : List (Option ℚ)) (w i : ℕ) : Option ℚ :=
  if i + 1 < w then none else meanOpt (rollWindow l w i)

/-- `spread.rolling(lookback).std()` at index `i`, represented by the
variance under the square root (NaN ↔ `none`, zero std ↔ `some 0`). -/
def rollingVarAt (l : List (Option ℚ)) (w i : ℕ) : Option ℚ :=
  if i + 1 < w then none else varOpt (rollWindow l w i)

/-- `zscore[i] = (spread[i] - spread_mean[i]) / spread_std[i]` with float
semantics: any NaN operand gives NaN; a zero std gives `0/0 = NaN` when the
numerator is zero and `±inf` otherwise (numpy emits a warning, never raises);
otherwise the finite value `num/√var`. -/
def zscoreAt (spread : List (Option ℚ)) (w i : ℕ) : PFloat :=
  match rollingMeanAt spread w i, rollingVarAt spread w i, spread.getD i none with
  | some m, some v, some s =>
      let num := s - m
      if v = 0 then
        if num = 0 then .nan else if 0 < num then .posInf else .negInf
      else .fin num v
  | _, _, _ => .nan

/-- The p-value array of the rolling cointegration check: `lookback` leading
NaNs, then the p-value of `coint(x[i-lookback:i], y[i-lookback:i])` (oracle
`pv i`) for each `i` from `lookback` to `n-1`. -/
def pvalsList (cfg : SAConfig) (pv : ℕ → ℚ) (n : ℕ) : List (Option ℚ) :=
  List.replicate cfg.lookback (none : Option ℚ) ++
    (List.range (n - cfg.lookback)).map fun j => some (pv (cfg.lookback + j))

/-- `coint_mask = pvals < coint_pval`: a NaN p-value compares false, so the
mask is boolean with `false` at the undefined leading indices. -/
def cointMask (cfg : SAConfig) (pv : ℕ → ℚ) (n : ℕ) : List Bool :=
  (pvalsList cfg pv n).map fun o =>
    match o with
    | none => false
    | some p => decide (p < cfg.coint_pval)

/-- The z-score series of one `run_backtest` evaluation:
`zscore = (spread - spread_mean) / spread_std` over the filled hedge-ratio
series' spread. -/
def zscoreListP (cfg : SAConfig) (x y : List ℚ) : List PFloat :=
  (List.range x.length).map
    (zscoreAt (spreadList (betaFilled x y cfg.lookback) x y) cfg.lookback)

/-- The three derived boolean signal series of `run_backtest`:
`long_entry = (zscore < -entry_z) & coint_mask`,
`short_entry = (zscore > entry_z) & coint_mask`,
`exit_trade = (|zscore| < exit_z) | ~coint_mask`.
Each `&`/`|` is an aligned elementwise operation: it raises (`none`) when
`coint_mask` does not have the length of the z-score series, which happens
exactly when `lookback > len(x)`. -/
def entrySignals (cfg : SAConfig) (pv : ℕ → ℚ) (x y : List ℚ) :
    Option (List Bool × List Bool × List Bool) :=
  (alignedAnd ((zscoreListP cfg x y).map fun z => z.ltQ (-cfg.entry_z))
      (cointMask cfg pv x.length)).bind fun longE =>
    (alignedAnd ((zscoreListP cfg x y).map fun z => z.gtQ cfg.entry_z)
        (cointMask cfg pv x.length)).bind fun shortE =>
      (alignedOr ((zscoreListP cfg x y).map fun z => z.absLtQ cfg.exit_z)
          ((cointMask cfg pv x.length).map (!·))).bind fun exitT =>
        some (longE, shortE, exitT)

/-- The position value at index `i` of the state-machine loop of
`run_backtest`: `positions[0] = 0` (the array is initialised to zeros and the
loop starts at 1); at `i ≥ 1`, `1` if `long_entry[i]`, else `-1` if
`short_entry[i]`, else `0` if `exit_trade[i]`, else `positions[i-1]`. -/
def posAt (longE shortE exitT : List Bool) : ℕ → ℚ
  | 0 => 0
  | i + 1 =>
      if longE.getD (i + 1) false then 1
      else if shortE.getD (i + 1) false then -1
      else if exitT.getD (i + 1) false then 0
      else posAt longE shortE exitT i

/-- The full `positions` array (`np.zeros(len(x))` written by the loop). -/
def positionsList (longE shortE exitT : List Bool) (n : ℕ) : List ℚ :=
  (List.range n).map (posAt longE shortE exitT)

/-- `pd.Series(v).pct_change().fillna(0)`: `0` at index 0, else
`v[i]/v[i-1] - 1`.  (On a zero previous price the source's float division
yields a non-finite value; the claims under verification never evaluate the
series at such inputs, and `ℚ` division idealises it.) -/
def pctChangeF0 (v : List ℚ) : List ℚ :=
  (List.range v.length).map fun i =>
    if i = 0 then 0 else v.getD i 0 / v.getD (i - 1) 0 - 1

/-- `r.diff().fillna(0)`: `0` at index 0, else `r[i] - r[i-1]`. -/
def diffF0 (r : List ℚ) : List ℚ :=
  (List.range r.length).map fun i =>
    if i = 0 then 0 else r.getD i 0 - r.getD (i - 1) 0

/-- The per-step portfolio-return computation of `run_backtest` (lines
108–117): `rx, ry` the zero-filled percentage returns, `diff_x, diff_y` their
zero-filled first differences, `hedge = beta[:-1]`, and
`port_ret = positions[:-1] * (diff_y - hedge * diff_x)`.
`hedge * diff_x` multiplies the length-`n-1` Series `beta[:-1]` with the
length-`n` ndarray `diff_x`: for `n ≥ 2` the shapes neither agree nor fall
under numpy's size-1 broadcast, so the operation raises (`none`) and the
metrics below it are unreachable; for `n ≤ 1` every operand is empty or
length-1 and the chain degenerates to an empty return series. -/
def portReturns (positions : List ℚ) (beta : List (Option ℚ)) (x y : List ℚ) :
    Option (List (Option ℚ)) :=
  let rx := pctChangeF0 x
  let ry := pctChangeF0 y
  let dy := diffF0 ry
  let dx := diffF0 rx
  let hedge := beta.dropLast
  do
    let hdx ← seriesOpArray omul hedge (dx.map some)
    let inner ← arrayOpSeries osub (dy.map some) hdx
    arrayOpSeries omul ((positions.dropLast).map some) inner

/-- `np.std` (population, `ddof=0`) squared: `Σ(r-r̄)²/n`. -/
def popVarQ (l : List ℚ) : ℚ :=
  ((l.map fun q => (q - meanQ l) ^ 2).sum) / (l.length : ℚ)

/-- `sharpe = mean/std * sqrt(252)` if `std > 0` else `0.0`, represented
exactly: `mean/√v · √252 = mean/√(v/252)`, and `0.0 = 0/√1`. -/
def sharpeOf (l : List ℚ) : PFloat :=
  if 0 < popVarQ l then .fin (meanQ l) (popVarQ l / 252) else .fin 0 1

/-- `trades = int(np.sum(np.abs(np.diff(positions)) > 0))`: the number of
indices `i ≥ 1` with `positions[i] ≠ positions[i-1]`. -/
def tradesOf (positions : List ℚ) : ℕ :=
  ((List.zipWith (fun a b => decide (a ≠ b)) positions positions.tail).count true)

/-- `coint_valid_pct`: `round(np.nanmean(coint_mask) * 100, 2)`.  The mask is
a boolean array (NaN p-values already compared to `false`), so `nanmean`
finds no NaNs to skip. -/
def cointValidPct (mask : List Bool) : Option ℚ :=
  (nanmeanQ (mask.map fun b => some (if b then (1 : ℚ) else 0))).map fun m =>
    roundTo 2 (m * 100)

/-- The dict returned by `run_backtest`: the `short`-input branch returns
only `{total_return, sharpe, trades}`; the full branch also reports
`avg_beta` and `coint_valid_pct`. -/
inductive BTOutcome where
  | short (total_return sharpe : ℚ) (trades : ℕ) : BTOutcome
  | full (total_return : ℚ) (sharpe : PFloat) (trades : ℕ)
      (avg_beta : Option ℚ) (coint_valid_pct : Option ℚ) : BTOutcome
deriving DecidableEq

/-- `StatisticalArbitrageStrategy.run_backtest` over price value arrays
`x = data["X"]["close"]`, `y = data["Y"]["close"]`, with the rolling
Engle–Granger p-values supplied by the oracle `pv`.  `none` is an uncaught
exception propagating to the caller. -/
def runBacktest (cfg : SAConfig) (pv : ℕ → ℚ) (x y : List ℚ) :
    Option BTOutcome :=
  if x.length < cfg.min_valid then some (.short 0 0 0)
  else do
    let (longE, shortE, exitT) ← entrySignals cfg pv x y
    let pos := positionsList longE shortE exitT x.length
    let beta := betaFilled x y cfg.lookback
    let pr ← portReturns pos beta x y
    let prf := pr.map fun o => o.getD 0
    some (.full (roundTo 4 ((prf.map fun r => 1 + r).prod - 1))
      (sharpeOf prf) (tradesOf pos)
      ((nanmeanQ beta).map (roundTo 4))
      (cointValidPct (cointMask cfg pv x.length)))

/-! ## `JohansenCointegration` (ai/cointegration/johansen_module.py) -/

/-- The constructor state of `JohansenCointegration`. -/
structure JohansenConfig where
  det_order : ℤ := 0
  k_ar_diff : ℕ := 1
  significance : ℚ := 1 / 20
deriving DecidableEq

/-- The output of the external `coint_johansen` call: the trace statistics
`lr1` (one per hypothesized rank, lowest first) and the critical-value table
`cvt` with its three columns for the 90%, 95% and 99% levels. -/
structure JohansenResult where
  lr1 : List ℚ
  cvt : List (ℚ × ℚ × ℚ)
deriving DecidableEq

/-- `JohansenCointegration.rank`: `crit_values = result.cvt[:, [1]]` (the 5%
column, whatever `significance` holds) and
`rank = np.sum(trace_stat > crit_values.flatten())`. -/
def johansenRank (cfg : JohansenConfig) (r : JohansenResult) : ℕ :=
  ((List.zipWith (fun t c => decide (c < t)) r.lr1 (r.cvt.map fun c => c.2.1)).count true)

/-- Modelled from the spec: the sequential trace-statistic procedure the spec
describes for rank selection — walk the hypothesized ranks from the lowest
upward and stop at the first trace statistic that does not exceed its
critical value.  (Stated for comparison with `johansenRank`, the code's
count-all computation.) -/
def sequentialTraceRank : List ℚ → List ℚ → ℕ
  | t :: ts, c :: cs => if c < t then sequentialTraceRank ts cs + 1 else 0
  | _, _ => 0

/-! ## `StatArbCluster` (strategies/statistical_arbitrage_cluster.py) -/

/-- The constructor state of `StatArbCluster`. -/
structure ClusterConfig where
  p_threshold : ℚ := 1 / 20
  min_rank : ℕ := 1
  max_assets : ℕ := 6
deriving DecidableEq

/-- The outcome of the external Engle–Granger `coint` call on the two
columns: a p-value, or a raised exception (caught by the source). -/
inductive EGOutcome where
  | ok (pvalue : ℚ) : EGOutcome
  | exn (msg : String) : EGOutcome
deriving DecidableEq

/-- The outcome of `JohansenCointegration().fit(prices)`: the fitted result,
or a raised exception (caught by the source). -/
inductive JohOutcome where
  | ok (res : JohansenResult) : JohOutcome
  | exn (msg : String) : JohOutcome
deriving DecidableEq

/-- The dict produced by `_find_cointegrated_groups` (also carrying, after
`evaluate_cluster`, nothing more the claims need beyond `method`, `rank`,
`pvalue`; the Johansen success dict has no `"pvalue"` key — `none` here). -/
structure CResult where
  method : String
  rank : ℕ
  pvalue : Option ℚ
deriving DecidableEq

/-- `_find_cointegrated_groups`: Engle–Granger for exactly 2 columns
(`rank = 1 if pval < p_threshold else 0`; on an exception `rank 0`,
`pvalue 1.0`), Johansen for 3 or more (rank from a default-configured
`JohansenCointegration`; on an exception `rank 0`, `pvalue 1.0`), and the
`{"method": "N/A", "rank": 0, "pvalue": 1.0}` fallthrough otherwise. -/
def findCointegratedGroups (cfg : ClusterConfig) (nAssets : ℕ)
    (eg : EGOutcome) (joh : JohOutcome) : CResult :=
  if nAssets = 2 then
    match eg with
    | .ok p => ⟨"Engle-Granger", if p < cfg.p_threshold then 1 else 0, some p⟩
    | .exn _ => ⟨"Engle-Granger", 0, some 1⟩
  else if 3 ≤ nAssets then
    match joh with
    | .ok r => ⟨"Johansen", johansenRank {} r, none⟩
    | .exn _ => ⟨"Johansen", 0, some 1⟩
  else ⟨"N/A", 0, some 1⟩

/-- `_cluster_score`: `max(0, 1 - pvalue)` for Engle–Granger (`pvalue`
defaulting to 1.0 when absent), `min(1, rank/3)` for Johansen, else 0. -/
def clusterScore (r : CResult) : ℚ :=
  if r.method = "Engle-Granger" then max 0 (1 - r.pvalue.getD 1)
  else if r.method = "Johansen" then min 1 ((r.rank : ℚ) / 3)
  else 0

/-- The dict after `evaluate_cluster` added `score` and `valid`. -/
structure EvalResult where
  base : CResult
  score : ℚ
  valid : Bool
deriving DecidableEq

/-- `evaluate_cluster`: the detection result plus
`score = round(_cluster_score(result), 3)` and
`valid = (method == "Engle-Granger" and rank == 1) or
(method == "Johansen" and rank >= min_rank)`. -/
def evaluateCluster (cfg : ClusterConfig) (nAssets : ℕ)
    (eg : EGOutcome) (joh : JohOutcome) : EvalResult :=
  let r := findCointegratedGroups cfg nAssets eg joh
  { base := r
    score := roundTo 3 (clusterScore r)
    valid := (r.method = "Engle-Granger" && r.rank == 1) ||
      (r.method = "Johansen" && decide (cfg.min_rank ≤ r.rank)) }

/-- The `long_entry` series of one `run_backtest` evaluation (defined when
`lookback ≤ len(x)`, the case in which the elementwise `&` does not raise). -/
def longList (cfg : SAConfig) (pv : ℕ → ℚ) (x y : List ℚ) : List Bool :=
  List.zipWith (· && ·) ((zscoreListP cfg x y).map fun z => z.ltQ (-cfg.entry_z))
    (cointMask cfg pv x.length)

/-- The `short_entry` series of one `run_backtest` evaluation. -/
def shortList (cfg : SAConfig) (pv : ℕ → ℚ) (x y : List ℚ) : List Bool :=
  List.zipWith (· && ·) ((zscoreListP cfg x y).map fun z => z.gtQ cfg.entry_z)
    (cointMask cfg pv x.length)

/-- The `exit_trade` series of one `run_backtest` evaluation. -/
def exitList (cfg : SAConfig) (pv : ℕ → ℚ) (x y : List ℚ) : List Bool :=
  List.zipWith (· || ·) ((zscoreListP cfg x y).map fun z => z.absLtQ cfg.exit_z)
    ((cointMask cfg pv x.length).map (!·))

/-- The exceedance series of the trace-statistic ladder: whether each trace
statistic exceeds its 95%-column critical value. -/
def exceedList (r : JohansenResult) : List Bool :=
  List.zipWith (fun t c => decide (c < t)) r.lr1 (r.cvt.map fun c => c.2.1)

/-- Modelled from the spec: `cointegration_valid_pct` as "the simple mean of
the cointegration-validity series computed only over defined entries,
ignoring the undefined entries at indices below the window" — i.e. the mean
of the validity indicators over indices `lookback ≤ i < n` only, as a
percentage (NaN when no defined entry exists). -/
def specCointValidPct (cfg : SAConfig) (pv : ℕ → ℚ) (n : ℕ) : Option ℚ :=
  let vals := (List.range (n - cfg.lookback)).map fun j =>
    if pv (cfg.lookback + j) < cfg.coint_pval then (1 : ℚ) else 0
  if vals.length = 0 then none
  else some (roundTo 2 (vals.sum / vals.length * 100))

/-! ## Structural lemmas about the embedded pipeline -/

theorem length_ffillGo {α : Type} (c : Option α) (l : List (Option α)) :
    (ffillGo c l).length = l.length := by
  induction l generalizing c with
  | nil => rfl
  | cons o rest ih => cases o <;> simp [ffillGo, ih]

theorem length_ffillO {α : Type} (l : List (Option α)) :
    (ffillO l).length = l.length := length_ffillGo none l

theorem length_bfillO {α : Type} (l : List (Option α)) :
    (bfillO l).length = l.length := by
  simp [bfillO, length_ffillGo]

theorem length_rollingBeta (x y : List ℚ) (w : ℕ) :
    (rollingBeta x y w).length = x.length := by
  simp [rollingBeta]

theorem length_betaFilled (x y : List ℚ) (w : ℕ) :
    (betaFilled x y w).length = x.length := by
  simp [betaFilled, length_ffillO, length_bfillO, length_rollingBeta]

theorem length_pvalsList (cfg : SAConfig) (pv : ℕ → ℚ) (n : ℕ) :
    (pvalsList cfg pv n).length = cfg.lookback + (n - cfg.lookback) := by
  simp [pvalsList]

theorem length_cointMask (cfg : SAConfig) (pv : ℕ → ℚ) (n : ℕ) :
    (cointMask cfg pv n).length = cfg.lookback + (n - cfg.lookback) := by
  simp [cointMask, length_pvalsList]

theorem length_pctChangeF0 (v : List ℚ) : (pctChangeF0 v).length = v.length := by
  simp [pctChangeF0]

theorem length_diffF0 (r : List ℚ) : (diffF0 r).length = r.length := by
  simp [diffF0]

theorem length_positionsList (longE shortE exitT : List Bool) (n : ℕ) :
    (positionsList longE shortE exitT n).length = n := by
  simp [positionsList]

theorem alignedOp_of_length_eq {α β γ : Type} (f : α → β → γ) {a : List α}
    {b : List β} (h : a.length = b.length) :
    alignedOp f a b = some (List.zipWith f a b) := by
  simp [alignedOp, h]

theorem alignedOp_of_length_ne {α β γ : Type} (f : α → β → γ) {a : List α}
    {b : List β} (h : a.length ≠ b.length) : alignedOp f a b = none := by
  simp [alignedOp, h]

theorem length_zscoreListP (cfg : SAConfig) (x y : List ℚ) :
    (zscoreListP cfg x y).length = x.length := by
  simp [zscoreListP]

theorem entrySignals_of_le (cfg : SAConfig) (pv : ℕ → ℚ) (x y : List ℚ)
    (h : cfg.lookback ≤ x.length) :
    entrySignals cfg pv x y =
      some (longList cfg pv x y, shortList cfg pv x y, exitList cfg pv x y) := by
  have hm : (cointMask cfg pv x.length).length = x.length := by
    rw [length_cointMask, Nat.add_sub_cancel' h]
  simp only [entrySignals, alignedAnd, alignedOr]
  rw [alignedOp_of_length_eq _ (by simp [hm, length_zscoreListP]),
    alignedOp_of_length_eq _ (by simp [hm, length_zscoreListP]),
    alignedOp_of_length_eq _ (by simp [hm, length_zscoreListP])]
  rfl

theorem entrySignals_of_gt (cfg : SAConfig) (pv : ℕ → ℚ) (x y : List ℚ)
    (h : x.length < cfg.lookback) : entrySignals cfg pv x y = none := by
  have hm : (cointMask cfg pv x.length).length = cfg.lookback := by
    rw [length_cointMask, Nat.sub_eq_zero_of_le (Nat.le_of_lt h), Nat.add_zero]
  have hne : ((zscoreListP cfg x y).map fun z => z.ltQ (-cfg.entry_z)).length
      ≠ (cointMask cfg pv x.length).length := by
    simp only [List.length_map, length_zscoreListP, hm]
    exact Nat.ne_of_lt h
  rw [entrySignals, alignedAnd, alignedOp_of_length_ne _ hne, Option.none_bind]

theorem portReturns_eq_none (positions : List ℚ) (beta : List (Option ℚ))
    (x y : List ℚ) (hb : beta.length = x.length) (h2 : 2 ≤ x.length) :
    portReturns positions beta x y = none := by
  have hlen : ¬beta.length - 1 = (diffF0 (pctChangeF0 x)).length := by
    rw [length_diffF0, length_pctChangeF0, hb]
    omega
  have hone : ¬(diffF0 (pctChangeF0 x)).length = 1 := by
    rw [length_diffF0, length_pctChangeF0]
    omega
  simp [portReturns, seriesOpArray, hlen, hone]

theorem runBacktest_of_short (cfg : SAConfig) (pv : ℕ → ℚ) (x y : List ℚ)
    (h : x.length < cfg.min_valid) :
    runBacktest cfg pv x y = some (.short 0 0 0) := by
  simp [runBacktest, h]

theorem runBacktest_of_long (cfg : SAConfig) (pv : ℕ → ℚ) (x y : List ℚ)
    (hmin : cfg.min_valid ≤ x.length) (h2 : 2 ≤ x.length) :
    runBacktest cfg pv x y = none := by
  rw [runBacktest, if_neg (Nat.not_lt.mpr hmin)]
  rcases Nat.lt_or_ge x.length cfg.lookback with hlt | hle
  · rw [entrySignals_of_gt cfg pv x y hlt]
    rfl
  · rw [entrySignals_of_le cfg pv x y hle]
    simp only [Option.bind_eq_bind, Option.some_bind]
    rw [portReturns_eq_none _ _ _ _ (length_betaFilled x y cfg.lookback) h2]
    rfl

theorem posAt_mem_tri (l s e : List Bool) (i : ℕ) :
    posAt l s e i = 0 ∨ posAt l s e i = 1 ∨ posAt l s e i = -1 := by
  induction i with
  | zero => left; rfl
  | succ j ih =>
      rw [posAt]
      split_ifs
      · right; left; rfl
      · right; right; rfl
      · left; rfl
      · exact ih

theorem positionsList_getElem? (l s e : List Bool) (n i : ℕ) (hi : i < n) :
    (positionsList l s e n)[i]? = some (posAt l s e i) := by
  simp [positionsList, List.getElem?_range, hi]

theorem positionsList_getD (l s e : List Bool) (n i : ℕ) (hi : i < n) :
    (positionsList l s e n).getD i 0 = posAt l s e i := by
  show ((positionsList l s e n).get? i).getD 0 = _
  rw [List.get?_eq_getElem?, positionsList_getElem? l s e n i hi]
  rfl

theorem entrySignals_inv (cfg : SAConfig) (pv : ℕ → ℚ) (x y : List ℚ)
    (l s e : List Bool) (h : entrySignals cfg pv x y = some (l, s, e)) :
    cfg.lookback ≤ x.length ∧ l = longList cfg pv x y ∧
      s = shortList cfg pv x y ∧ e = exitList cfg pv x y := by
  rcases Nat.lt_or_ge x.length cfg.lookback with hlt | hle
  · rw [entrySignals_of_gt cfg pv x y hlt] at h
    cases h
  · rw [entrySignals_of_le cfg pv x y hle] at h
    simp only [Option.some.injEq, Prod.mk.injEq] at h
    exact ⟨hle, h.1.symm, h.2.1.symm, h.2.2.symm⟩

theorem cointMask_getElem?_of_lt (cfg : SAConfig) (pv : ℕ → ℚ) (n i : ℕ)
    (hi : i < cfg.lookback) : (cointMask cfg pv n)[i]? = some false := by
  rw [cointMask, pvalsList, List.map_append, List.map_replicate,
    List.getElem?_append_left (by simpa using hi), List.getElem?_replicate]
  simp [hi]

theorem signals_below_lookback (cfg : SAConfig) (pv : ℕ → ℚ) (x y : List ℚ)
    (i : ℕ) (hi : i < cfg.lookback) (hin : i < x.length) :
    (longList cfg pv x y).getD i false = false ∧
      (shortList cfg pv x y).getD i false = false ∧
      (exitList cfg pv x y).getD i false = true := by
  have hz : ∀ f : PFloat → Bool, ((zscoreListP cfg x y).map f)[i]? =
      some (f (zscoreAt (spreadList (betaFilled x y cfg.lookback) x y) cfg.lookback i)) := by
    intro f
    simp [zscoreListP, List.getElem?_range, hin]
  have hm := cointMask_getElem?_of_lt cfg pv x.length i hi
  refine ⟨?_, ?_, ?_⟩
  · show (((longList cfg pv x y).get? i)).getD false = false
    rw [List.get?_eq_getElem?, longList, List.getElem?_zipWith', hz, hm]
    simp
  · show (((shortList cfg pv x y).get? i)).getD false = false
    rw [List.get?_eq_getElem?, shortList, List.getElem?_zipWith', hz, hm]
    simp
  · show (((exitList cfg pv x y).get? i)).getD false = true
    rw [List.get?_eq_getElem?, exitList, List.getElem?_zipWith', hz,
      List.getElem?_map, hm]
    simp

theorem decide_rat_lt_true {p q : ℚ} (h : p < q) : decide (p < q) = true := by
  simp [h]

theorem decide_rat_lt_false {p q : ℚ} (h : ¬p < q) : decide (p < q) = false := by
  simp [h]

/-! ## The claims -/

/-- **C1** — the claim says `run_backtest` computes
`port_ret[t] = position[t-1]·(diff_y[t] - beta[t]·diff_x[t])` and
`total_return = Π(1+port_ret) - 1` for every equal-length input pair of
length at least `min_valid`.  The code cannot: for every such pair with at
least two bars, `hedge = beta[:-1]` has length `n-1` while `diff_x` has
length `n`, shapes that neither match nor qualify for numpy's size-1
broadcast, so `hedge * diff_x` raises `ValueError` and `run_backtest` never
returns its metrics dict (`= none`).  (Only the degenerate lengths `n ≤ 1` —
reachable solely when `min_valid` is lowered to `≤ 1` — slip through, with
empty or length-1 operands broadcasting to an empty return series.) -/
theorem C1_perf_formula_unreachable (cfg : SAConfig) (pv : ℕ → ℚ)
    (x y : List ℚ) (hmin : cfg.min_valid ≤ x.length) (h2 : 2 ≤ x.length) :
    runBacktest cfg pv x y = none :=
  runBacktest_of_long cfg pv x y hmin h2

/-- Witness for C1 at a concrete failing input. -/
theorem C1_perf_formula_unreachable_witness :
    runBacktest ⟨2, 2, 1/2, 1/20, 3⟩ (fun _ => 1) [1, 2, 3] [2, 4, 6] = none :=
  C1_perf_formula_unreachable ⟨2, 2, 1/2, 1/20, 3⟩ (fun _ => 1) [1, 2, 3]
    [2, 4, 6] (by decide) (by decide)

/-- **C4** counterexample — an input shorter than `min_valid` does not raise
`InsufficientDataError` (no such class exists in the code): `run_backtest`
returns the normal degraded dict `{"total_return": 0.0, "sharpe": 0.0,
"trades": 0}`. -/
theorem C4_counterexample :
    runBacktest {} (fun _ => 1) [(1 : ℚ)] [(2 : ℚ)] =
      some (BTOutcome.short 0 0 0) :=
  runBacktest_of_short {} (fun _ => 1) [1] [2] (by decide)

/-- **C4** (amended) — when the input series are shorter than `min_valid`,
`run_backtest` returns the degraded normal result
`{"total_return": 0.0, "sharpe": 0.0, "trades": 0}` to the caller instead of
raising anything. -/
theorem C4_short_input_normal_result (cfg : SAConfig) (pv : ℕ → ℚ)
    (x y : List ℚ) (h : x.length < cfg.min_valid) :
    runBacktest cfg pv x y = some (BTOutcome.short 0 0 0) :=
  runBacktest_of_short cfg pv x y h

/-- Witness for the amended C4. -/
theorem C4_short_input_normal_result_witness :
    runBacktest {} (fun _ => 1/100) [(3 : ℚ), 4] [(5 : ℚ), 6] =
      some (BTOutcome.short 0 0 0) :=
  C4_short_input_normal_result {} (fun _ => 1/100) [3, 4] [5, 6] (by decide)

/-- **C2** — for every evaluation whose signal stage completes, the position
sequence has the length of the input, takes values in `{0, 1, -1}` only,
starts `FLAT = 0`, and at every `i ≥ 1` follows the fixed priority order:
`LONG` on `long_entry[i]`, else `SHORT` on `short_entry[i]`, else `FLAT` on
`exit_trade[i]`, else the previous position. -/
theorem C2_position_state_machine (cfg : SAConfig) (pv : ℕ → ℚ) (x y : List ℚ)
    (l s e : List Bool) (h : entrySignals cfg pv x y = some (l, s, e)) :
    (positionsList l s e x.length).length = x.length
    ∧ (∀ q ∈ positionsList l s e x.length, q = 0 ∨ q = 1 ∨ q = -1)
    ∧ (0 < x.length → (positionsList l s e x.length)[0]? = some 0)
    ∧ (∀ i, 1 ≤ i → i < x.length →
        (positionsList l s e x.length).getD i 0 =
          if l.getD i false then 1
          else if s.getD i false then -1
          else if e.getD i false then 0
          else (positionsList l s e x.length).getD (i - 1) 0) := by
  refine ⟨length_positionsList l s e x.length, ?_, ?_, ?_⟩
  · intro q hq
    simp only [positionsList, List.mem_map, List.mem_range] at hq
    obtain ⟨i, _, rfl⟩ := hq
    exact posAt_mem_tri l s e i
  · intro h0
    rw [positionsList_getElem? l s e _ 0 h0]
    rfl
  · intro i h1 hi
    obtain ⟨j, rfl⟩ : ∃ j, i = j + 1 := ⟨i - 1, by omega⟩
    simp only [Nat.add_sub_cancel]
    rw [positionsList_getD l s e _ (j + 1) hi,
      positionsList_getD l s e _ j (by omega), posAt]

theorem betaEval123 : betaFilled [1, 2, 3] [2, 4, 6] 2 =
    [some 2, some 2, some 2] := by
  norm_num [betaFilled, bfillO, ffillO, ffillGo, rollingBeta, olsSlope, meanQ,
    List.range_succ]

theorem spreadEval123 : spreadList (betaFilled [1, 2, 3] [2, 4, 6] 2) [1, 2, 3]
    [2, 4, 6] = [some 0, some 0, some 0] := by
  rw [betaEval123]
  norm_num [spreadList]

theorem zscoreEval123 : zscoreListP ⟨2, 2, 1/2, 1/20, 3⟩ [1, 2, 3] [2, 4, 6] =
    [.nan, .nan, .nan] := by
  norm_num [zscoreListP, spreadEval123, zscoreAt, rollingMeanAt, rollingVarAt,
    rollWindow, meanOpt, varOpt, allSomeList, meanQ, List.range_succ]

theorem maskEval123 : cointMask ⟨2, 2, 1/2, 1/20, 3⟩ (fun _ => 1) 3 =
    [false, false, false] := by
  norm_num [cointMask, pvalsList, List.replicate,
    decide_rat_lt_false (show ¬(1 : ℚ) < 1/20 by norm_num), List.range_succ]

theorem signalsEval123 :
    entrySignals ⟨2, 2, 1/2, 1/20, 3⟩ (fun _ => 1) [1, 2, 3] [2, 4, 6] =
      some ([false, false, false], [false, false, false],
        [true, true, true]) := by
  rw [entrySignals_of_le _ _ _ _ (by decide)]
  rw [longList, shortList, exitList, zscoreEval123]
  norm_num [maskEval123, PFloat.ltQ, PFloat.gtQ, PFloat.absLtQ]

/-- Witness for C2 on a concrete three-bar evaluation. -/
theorem C2_position_state_machine_witness :
    (positionsList [false, false, false] [false, false, false]
        [true, true, true] 3).length = 3
    ∧ (∀ q ∈ positionsList [false, false, false] [false, false, false]
        [true, true, true] 3, q = 0 ∨ q = 1 ∨ q = -1)
    ∧ (0 < 3 → (positionsList [false, false, false] [false, false, false]
        [true, true, true] 3)[0]? = some 0)
    ∧ (∀ i, 1 ≤ i → i < 3 →
        (positionsList [false, false, false] [false, false, false]
            [true, true, true] 3).getD i 0 =
          if List.getD [false, false, false] i false then 1
          else if List.getD [false, false, false] i false then -1
          else if List.getD [true, true, true] i false then 0
          else (positionsList [false, false, false] [false, false, false]
              [true, true, true] 3).getD (i - 1) 0) :=
  C2_position_state_machine ⟨2, 2, 1/2, 1/20, 3⟩ (fun _ => 1) [1, 2, 3]
    [2, 4, 6] [false, false, false] [false, false, false] [true, true, true]
    signalsEval123

/-- **C10** — for every evaluation whose signal stage completes, the position
is `FLAT = 0` at every index below `lookback`: the cointegration mask is
false before the first full window, so no entry fires and `exit_trade` holds
there, and `positions[0] = 0`. -/
theorem C10_flat_below_lookback (cfg : SAConfig) (pv : ℕ → ℚ) (x y : List ℚ)
    (l s e : List Bool) (h : entrySignals cfg pv x y = some (l, s, e))
    (i : ℕ) (hi : i < cfg.lookback) (hn : i < x.length) :
    (positionsList l s e x.length).getD i 0 = 0 := by
  obtain ⟨hlb, rfl, rfl, rfl⟩ := entrySignals_inv cfg pv x y l s e h
  rw [positionsList_getD _ _ _ _ i hn]
  cases i with
  | zero => rfl
  | succ j =>
      obtain ⟨h1, h2, h3⟩ := signals_below_lookback cfg pv x y (j + 1) hi hn
      rw [posAt, h1, h2, h3]
      simp

/-- Witness for C10 at a concrete index below the lookback. -/
theorem C10_flat_below_lookback_witness :
    (positionsList [false, false, false] [false, false, false]
        [true, true, true] 3).getD 1 0 = 0 :=
  C10_flat_below_lookback ⟨2, 2, 1/2, 1/20, 3⟩ (fun _ => 1) [1, 2, 3]
    [2, 4, 6] [false, false, false] [false, false, false] [true, true, true]
    signalsEval123 1 (by decide) (by decide)

/-- **C5** counterexample — a one-series cluster does not raise
`InvalidClusterSizeError` (no such class exists in the code):
`evaluate_cluster` returns the normal degraded result
`{method: "N/A", rank: 0, pvalue: 1.0, score: 0.0, valid: False}`. -/
theorem C5_counterexample :
    evaluateCluster {} 1 (.exn "boom") (.exn "boom") =
      ⟨⟨"N/A", 0, some 1⟩, 0, false⟩ := by
  norm_num [evaluateCluster, findCointegratedGroups, clusterScore, roundTo]

/-- **C5** (amended) — a cluster with fewer than 2 series makes both test
variants unreachable and yields the degraded zero-confidence result
`{method: "N/A", rank: 0, pvalue: 1.0, score: 0.0, valid: False}`; no
exception is raised. -/
theorem C5_small_cluster_degraded_result (cfg : ClusterConfig)
    (eg : EGOutcome) (joh : JohOutcome) (nAssets : ℕ) (h : nAssets < 2) :
    evaluateCluster cfg nAssets eg joh = ⟨⟨"N/A", 0, some 1⟩, 0, false⟩ := by
  have h2 : ¬nAssets = 2 := by omega
  have h3 : ¬3 ≤ nAssets := by omega
  have hs1 : ("N/A" : String) ≠ "Engle-Granger" := by decide
  have hs2 : ("N/A" : String) ≠ "Johansen" := by decide
  norm_num [evaluateCluster, findCointegratedGroups, clusterScore, roundTo,
    h2, h3, hs1, hs2]

/-- Witness for the amended C5. -/
theorem C5_small_cluster_degraded_result_witness :
    evaluateCluster {} 0 (.ok (1/10)) (.exn "singular") =
      ⟨⟨"N/A", 0, some 1⟩, 0, false⟩ :=
  C5_small_cluster_degraded_result {} (.ok (1/10)) (.exn "singular") 0
    (by decide)

/-- **C6** — for every cluster evaluation, a pairwise (2-asset) result is
scored `max(0, 1 - pvalue)` and is valid iff `rank == 1`; a multivariate
(3+-asset) result is scored `min(1, rank/3)` and is valid iff
`rank >= min_rank`. -/
theorem C6_score_and_validity (cfg : ClusterConfig) (eg : EGOutcome)
    (joh : JohOutcome) (nAssets : ℕ) :
    (nAssets = 2 →
      clusterScore (findCointegratedGroups cfg nAssets eg joh) =
        max 0 (1 - (findCointegratedGroups cfg nAssets eg joh).pvalue.getD 1)
      ∧ ((evaluateCluster cfg nAssets eg joh).valid = true ↔
          (findCointegratedGroups cfg nAssets eg joh).rank = 1))
    ∧ (3 ≤ nAssets →
      clusterScore (findCointegratedGroups cfg nAssets eg joh) =
        min 1 (((findCointegratedGroups cfg nAssets eg joh).rank : ℚ) / 3)
      ∧ ((evaluateCluster cfg nAssets eg joh).valid = true ↔
          cfg.min_rank ≤ (findCointegratedGroups cfg nAssets eg joh).rank)) := by
  constructor
  · rintro rfl
    cases eg <;>
      simp [findCointegratedGroups, clusterScore, evaluateCluster,
        Nat.beq_eq_true_eq]
  · intro h3
    have h2 : ¬nAssets = 2 := by omega
    cases joh <;>
      simp [findCointegratedGroups, clusterScore, evaluateCluster, h2, h3,
        Nat.beq_eq_true_eq]

/-- Witness for C6 on a concrete pairwise evaluation. -/
theorem C6_score_and_validity_witness :
    clusterScore (findCointegratedGroups {} 2 (.ok (1/10)) (.exn "singular")) =
      max 0 (1 - (findCointegratedGroups {} 2 (.ok (1/10))
        (.exn "singular")).pvalue.getD 1)
    ∧ ((evaluateCluster {} 2 (.ok (1/10)) (.exn "singular")).valid = true ↔
        (findCointegratedGroups {} 2 (.ok (1/10)) (.exn "singular")).rank = 1) :=
  (C6_score_and_validity {} (.ok (1/10)) (.exn "singular") 2).1 rfl

theorem johansenRank_eq_count (cfg : JohansenConfig) (r : JohansenResult) :
    johansenRank cfg r = (exceedList r).count true := rfl

theorem count_true_eq_zero_of_all_false {l : List Bool}
    (h : ∀ j : ℕ, l.getD j false = false) : l.count true = 0 := by
  rw [List.count_eq_zero]
  intro hmem
  obtain ⟨i, hi, hget⟩ := List.mem_iff_getElem.mp hmem
  have := h i
  rw [List.getD_eq_getElem?_getD, List.getElem?_eq_getElem hi, hget] at this
  cases this

theorem count_eq_sequential (lt lc : List ℚ)
    (hmono : ∀ i j : ℕ, i ≤ j →
      (List.zipWith (fun t c => decide (c < t)) lt lc).getD j false = true →
      (List.zipWith (fun t c => decide (c < t)) lt lc).getD i false = true) :
    (List.zipWith (fun t c => decide (c < t)) lt lc).count true =
      sequentialTraceRank lt lc := by
  induction lt generalizing lc with
  | nil => cases lc <;> rfl
  | cons t ts ih =>
      cases lc with
      | nil => rfl
      | cons c cs =>
          simp only [List.zipWith_cons_cons] at hmono ⊢
          by_cases hct : c < t
          · rw [sequentialTraceRank, if_pos hct, List.count_cons]
            rw [ih cs ?_]
            · simp [hct]
            · intro i j hij hj
              have := hmono (i + 1) (j + 1) (by omega)
              simpa [List.getD_cons_succ] using this (by simpa using hj)
          · rw [sequentialTraceRank, if_neg hct]
            apply count_true_eq_zero_of_all_false
            intro j
            by_contra hne
            have hj : (decide (c < t) ::
                List.zipWith (fun t c => decide (c < t)) ts cs).getD j false
                  = true := by
              cases hgd : (decide (c < t) ::
                  List.zipWith (fun t c => decide (c < t)) ts cs).getD j false
              · exact absurd hgd hne
              · rfl
            have h0 := hmono 0 j (Nat.zero_le j) hj
            rw [List.getD_cons_zero] at h0
            exact absurd (of_decide_eq_true h0) hct

/-- **C3** counterexample — on the Johansen output with trace statistics
`[10, 1, 10]` and 95%-column critical values `[5, 5, 5]`, the code's rank
(count of all exceedances, here 2) differs from the spec's sequential
procedure, which stops at the first non-rejection (here 1). -/
theorem C3_counterexample :
    johansenRank {} ⟨[10, 1, 10], [(4, 5, 6), (4, 5, 6), (4, 5, 6)]⟩ ≠
      sequentialTraceRank [10, 1, 10]
        ([(4, 5, 6), (4, 5, 6), (4, 5, 6)].map fun c => c.2.1) := by
  have h1 : johansenRank {} ⟨[10, 1, 10], [(4, 5, 6), (4, 5, 6), (4, 5, 6)]⟩
      = 2 := by
    norm_num [johansenRank,
      decide_rat_lt_true (show (5 : ℚ) < 10 by norm_num),
      decide_rat_lt_false (show ¬(5 : ℚ) < 1 by norm_num)]
  have h2 : sequentialTraceRank [10, 1, 10]
      ([(4, 5, 6), (4, 5, 6), (4, 5, 6)].map fun c => (c.2.1 : ℚ)) = 1 := by
    norm_num [sequentialTraceRank]
  rw [h1, h2]
  decide

/-- **C3** (amended) — `JohansenCointegration.rank` counts all trace
statistics exceeding the critical values of the fixed 95% column (the
configured `significance` is ignored), with no sequential stop; this
coincides with the spec's sequential procedure exactly when the exceedance
series is downward closed (the usual monotone case). -/
theorem C3_rank_counts_95pct_exceedances (cfg cfg' : JohansenConfig)
    (r : JohansenResult)
    (hmono : ∀ i j : ℕ, i ≤ j → (exceedList r).getD j false = true →
      (exceedList r).getD i false = true) :
    johansenRank cfg r = johansenRank cfg' r
    ∧ johansenRank cfg r = (exceedList r).count true
    ∧ johansenRank cfg r = sequentialTraceRank r.lr1 (r.cvt.map fun c => c.2.1) := by
  refine ⟨rfl, rfl, ?_⟩
  rw [johansenRank_eq_count]
  simp only [exceedList] at hmono
  exact count_eq_sequential r.lr1 (r.cvt.map fun c => c.2.1) hmono

/-- Witness for the amended C3 on a monotone concrete ladder. -/
theorem C3_rank_counts_95pct_exceedances_witness :
    johansenRank {} ⟨[10, 1], [(4, 5, 6), (4, 5, 6)]⟩ =
      johansenRank ⟨0, 1, 1/100⟩ ⟨[10, 1], [(4, 5, 6), (4, 5, 6)]⟩
    ∧ johansenRank {} ⟨[10, 1], [(4, 5, 6), (4, 5, 6)]⟩ =
        (exceedList ⟨[10, 1], [(4, 5, 6), (4, 5, 6)]⟩).count true
    ∧ johansenRank {} ⟨[10, 1], [(4, 5, 6), (4, 5, 6)]⟩ =
        sequentialTraceRank [10, 1]
          ([(4, 5, 6), (4, 5, 6)].map fun c => c.2.1) := by
  have hE : exceedList ⟨[10, 1], [(4, 5, 6), (4, 5, 6)]⟩ = [true, false] := by
    norm_num [exceedList,
      decide_rat_lt_true (show (5 : ℚ) < 10 by norm_num),
      decide_rat_lt_false (show ¬(5 : ℚ) < 1 by norm_num)]
  exact C3_rank_counts_95pct_exceedances {} ⟨0, 1, 1/100⟩
    ⟨[10, 1], [(4, 5, 6), (4, 5, 6)]⟩ (by
      intro i j hij hj
      rw [hE] at hj ⊢
      rcases Nat.lt_or_ge j 2 with hj2 | hj2
      · interval_cases j
        · have hi0 : i = 0 := by omega
          subst hi0
          rfl
        · exact absurd hj (by decide)
      · rw [List.getD_eq_default _ _ (by simp; omega)] at hj
        cases hj)

theorem ffillGo_some_all {α : Type} (m : List (Option α)) (a : α) :
    ∀ o ∈ ffillGo (some a) m, o ≠ none := by
  induction m generalizing a with
  | nil => intro o ho; cases ho
  | cons x rest ih =>
      intro o ho
      cases x with
      | none =>
          rw [ffillGo] at ho
          rcases List.mem_cons.mp ho with rfl | hmem
          · exact Option.some_ne_none a
          · exact ih a o hmem
      | some b =>
          rw [ffillGo] at ho
          rcases List.mem_cons.mp ho with rfl | hmem
          · exact Option.some_ne_none b
          · exact ih b o hmem

theorem ffillGo_some_reverse_cons {α : Type} (t : List (Option α)) (a : α)
    (h : t ≠ []) : ∃ b rest, (ffillGo (some a) t).reverse = some b :: rest := by
  induction t generalizing a with
  | nil => cases h rfl
  | cons z t' ih =>
      cases ht' : t' with
      | nil =>
          cases z with
          | none => exact ⟨a, [], by simp [ffillGo]⟩
          | some c => exact ⟨c, [], by simp [ffillGo]⟩
      | cons w t'' =>
          rw [← ht']
          have hne : t' ≠ [] := by simp [ht']
          cases z with
          | none =>
              obtain ⟨b, rest, hr⟩ := ih a hne
              exact ⟨b, rest ++ [some a], by simp [ffillGo, hr]⟩
          | some c =>
              obtain ⟨b, rest, hr⟩ := ih c hne
              exact ⟨b, rest ++ [some c], by simp [ffillGo, hr]⟩

theorem ffillO_reverse_cons {α : Type} (l : List (Option α)) (a : α)
    (h : some a ∈ l) : ∃ b rest, (ffillO l).reverse = some b :: rest := by
  induction l with
  | nil => cases h
  | cons x t ih =>
      cases ht : t with
      | nil =>
          rcases List.mem_cons.mp h with rfl | hmem
          · exact ⟨a, [], by simp [ffillO, ffillGo]⟩
          · rw [ht] at hmem; cases hmem
      | cons w t'' =>
          rw [← ht]
          have hne : t ≠ [] := by simp [ht]
          rcases List.mem_cons.mp h with rfl | hmem
          · obtain ⟨b, rest, hr⟩ := ffillGo_some_reverse_cons t a hne
            exact ⟨b, rest ++ [some a], by simp [ffillO, ffillGo, hr]⟩
          · cases x with
            | none =>
                obtain ⟨b, rest, hr⟩ := ih hmem
                rw [ffillO] at hr
                exact ⟨b, rest ++ [none], by simp [ffillO, ffillGo, hr]⟩
            | some c =>
                obtain ⟨b, rest, hr⟩ := ffillGo_some_reverse_cons t c hne
                exact ⟨b, rest ++ [some c], by simp [ffillO, ffillGo, hr]⟩

theorem bfillO_ffillO_all_some {α : Type} (l : List (Option α)) (a : α)
    (h : some a ∈ l) : ∀ o ∈ bfillO (ffillO l), o ≠ none := by
  obtain ⟨b, rest, hr⟩ := ffillO_reverse_cons l a h
  intro o ho
  rw [bfillO, hr] at ho
  rw [List.mem_reverse] at ho
  rw [ffillGo] at ho
  rcases List.mem_cons.mp ho with rfl | hmem
  · exact Option.some_ne_none b
  · exact ffillGo_some_all rest b o hmem

/-- **C7** counterexample — with a window at least the series length, no beta
is ever computed, and forward- then back-filling an all-NaN series leaves it
all-NaN: the claim's "no NaN entries for every input series and window"
fails at `window = len = 3`. -/
theorem C7_counterexample :
    (none : Option ℚ) ∈ betaFilled [1, 1, 1] [1, 1, 1] 3 := by
  have h : betaFilled [1, 1, 1] [1, 1, 1] 3 = [none, none, none] := by
    norm_num [betaFilled, bfillO, ffillO, ffillGo, rollingBeta,
      List.range_succ]
  rw [h]
  simp

/-- **C7** (amended) — the filled hedge-ratio series always has the input's
length, and it contains no NaN entry provided the input is strictly longer
than the window (so that at least one rolling OLS fit exists); when
`window ≥ len`, every entry stays NaN. -/
theorem C7_beta_filled_length_no_nan (x y : List ℚ) (w : ℕ)
    (hw : w < x.length) :
    (betaFilled x y w).length = x.length
    ∧ ∀ o ∈ betaFilled x y w, o ≠ none := by
  refine ⟨length_betaFilled x y w, ?_⟩
  have hmem : some (olsSlope ((x.drop (w - w)).take w) ((y.drop (w - w)).take w))
      ∈ rollingBeta x y w := by
    rw [rollingBeta]
    refine List.mem_map.mpr ⟨w, List.mem_range.mpr hw, ?_⟩
    rw [if_neg (lt_irrefl w)]
  exact bfillO_ffillO_all_some (rollingBeta x y w) _ hmem

/-- Witness for the amended C7. -/
theorem C7_beta_filled_length_no_nan_witness :
    (betaFilled [1, 2, 3] [2, 4, 6] 2).length = 3
    ∧ ∀ o ∈ betaFilled [1, 2, 3] [2, 4, 6] 2, o ≠ none :=
  C7_beta_filled_length_no_nan [1, 2, 3] [2, 4, 6] 2 (by decide)

theorem sum_sq_dev_zero {v : List ℚ} {m : ℚ}
    (h : (v.map fun q => (q - m) ^ 2).sum = 0) : ∀ q ∈ v, q = m := by
  induction v with
  | nil => intro q hq; cases hq
  | cons a t ih =>
      rw [List.map_cons, List.sum_cons] at h
      have hrest : 0 ≤ (t.map fun q => (q - m) ^ 2).sum :=
        List.sum_nonneg fun q hq => by
          obtain ⟨r, _, rfl⟩ := List.mem_map.mp hq
          exact sq_nonneg _
      have ha2 : (a - m) ^ 2 = 0 := by nlinarith [sq_nonneg (a - m)]
      have ha : a = m := by
        have := pow_eq_zero_iff (n := 2) (by norm_num) |>.mp ha2
        linarith [sub_eq_zero.mp this]
      intro q hq
      rcases List.mem_cons.mp hq with rfl | hmem
      · exact ha
      · exact ih (by nlinarith [sq_nonneg (a - m)]) q hmem

theorem allSomeList_shape {l : List (Option ℚ)} {v : List ℚ}
    (h : allSomeList l = some v) : l = v.map some := by
  induction l generalizing v with
  | nil =>
      rw [allSomeList] at h
      cases h
      rfl
  | cons x t ih =>
      cases x with
      | none => cases h
      | some q =>
          rw [allSomeList] at h
          cases hAS : allSomeList t with
          | none => rw [hAS] at h; cases h
          | some v' =>
              rw [hAS] at h
              cases h
              rw [List.map_cons, ← ih hAS]

theorem varOpt_zero {l : List (Option ℚ)} (h : varOpt l = some 0) :
    ∃ v, allSomeList l = some v ∧ 2 ≤ v.length ∧ ∀ q ∈ v, q = meanQ v := by
  rw [varOpt] at h
  cases hAS : allSomeList l with
  | none => rw [hAS] at h; cases h
  | some v =>
      rw [hAS, Option.some_bind] at h
      by_cases hlen : v.length ≤ 1
      · rw [if_pos hlen] at h; cases h
      · rw [if_neg hlen] at h
        refine ⟨v, rfl, by omega, ?_⟩
        have hden : ((v.length - 1 : ℕ) : ℚ) ≠ 0 :=
          Nat.cast_ne_zero.mpr (by omega)
        have hsum : ((v.map fun q => (q - meanQ v) ^ 2).sum) = 0 := by
          have := Option.some.inj h
          rcases div_eq_zero_iff.mp this with hz | hz
          · exact hz
          · exact absurd hz hden
        exact sum_sq_dev_zero hsum

theorem rollWindow_length (l : List (Option ℚ)) (w i : ℕ) (hw : w ≤ i + 1)
    (hi : i < l.length) : (rollWindow l w i).length = w := by
  simp only [rollWindow, List.length_take, List.length_drop]
  omega

theorem rollWindow_last (l : List (Option ℚ)) (w i : ℕ) (hw : w ≤ i + 1)
    (hi : i < l.length) (h1 : 1 ≤ w) :
    (rollWindow l w i)[w - 1]? = l[i]? := by
  rw [rollWindow, List.getElem?_take_of_lt (by omega), List.getElem?_drop]
  congr 1
  omega

theorem zscoreAt_nan_of_var_zero (spread : List (Option ℚ)) (w i : ℕ)
    (hi : i < spread.length) (h0 : rollingVarAt spread w i = some 0) :
    zscoreAt spread w i = .nan := by
  have hw : ¬i + 1 < w := by
    by_contra hlt
    rw [rollingVarAt, if_pos hlt] at h0
    cases h0
  have h0' : varOpt (rollWindow spread w i) = some 0 := by
    rw [rollingVarAt, if_neg hw] at h0
    exact h0
  obtain ⟨v, hAS, hlen2, hall⟩ := varOpt_zero h0'
  have hshape := allSomeList_shape hAS
  have hwin : (rollWindow spread w i).length = w :=
    rollWindow_length spread w i (by omega) hi
  have hvlen : v.length = w := by
    have hh : (rollWindow spread w i).length = v.length := by
      rw [hshape, List.length_map]
    omega
  have hw2 : 2 ≤ w := by omega
  have hvw : w - 1 < v.length := by omega
  have hgd : spread.getD i none = some (meanQ v) := by
    have hlast : (rollWindow spread w i)[w - 1]? = spread[i]? :=
      rollWindow_last spread w i (by omega) hi (by omega)
    rw [hshape, List.getElem?_map, List.getElem?_eq_getElem hvw] at hlast
    have hmem : v[w - 1] ∈ v := List.getElem_mem hvw
    rw [List.getD_eq_getElem?_getD, ← hlast, Option.map_some', hall _ hmem]
    rfl
  have hmean : rollingMeanAt spread w i = some (meanQ v) := by
    rw [rollingMeanAt, if_neg hw, meanOpt, hAS]
    rfl
  rw [zscoreAt, hmean, h0, hgd]
  simp

theorem zipWith_getD_of_lt {α β γ : Type} (f : α → β → γ) (a : List α)
    (b : List β) (i : ℕ) (da : α) (db : β) (dc : γ) (hia : i < a.length)
    (hib : i < b.length) :
    (List.zipWith f a b).getD i dc = f (a.getD i da) (b.getD i db) := by
  rw [List.getD_eq_getElem?_getD, List.getD_eq_getElem?_getD,
    List.getD_eq_getElem?_getD, List.getElem?_zipWith',
    List.getElem?_eq_getElem hia, List.getElem?_eq_getElem hib]
  rfl

theorem map_getD_pf (zs : List PFloat) (f : PFloat → Bool) (i : ℕ)
    (hi : i < zs.length) : (zs.map f).getD i false = f (zs.getD i .nan) := by
  rw [List.getD_eq_getElem?_getD, List.getElem?_map,
    List.getElem?_eq_getElem hi, List.getD_eq_getElem?_getD,
    List.getElem?_eq_getElem hi]
  rfl

theorem zscoreListP_getD (cfg : SAConfig) (x y : List ℚ) (i : ℕ)
    (hi : i < x.length) (d : PFloat) : (zscoreListP cfg x y).getD i d =
      zscoreAt (spreadList (betaFilled x y cfg.lookback) x y) cfg.lookback i := by
  rw [List.getD_eq_getElem?_getD, zscoreListP, List.getElem?_map,
    List.getElem?_range hi]
  rfl

/-- **C8** — at every index where the rolling spread standard deviation is
exactly zero, the window is constant, so the z-score numerator is zero as
well: the division yields `0/0 = NaN` (it never raises), and the NaN compares
false against both entry thresholds, so neither `long_entry` nor
`short_entry` holds there. -/
theorem C8_zero_std_nan_no_entry (cfg : SAConfig) (pv : ℕ → ℚ) (x y : List ℚ)
    (l s e : List Bool) (h : entrySignals cfg pv x y = some (l, s, e))
    (hxy : y.length = x.length) (i : ℕ) (hi : i < x.length)
    (h0 : rollingVarAt (spreadList (betaFilled x y cfg.lookback) x y)
      cfg.lookback i = some 0) :
    zscoreAt (spreadList (betaFilled x y cfg.lookback) x y) cfg.lookback i =
      .nan
    ∧ l.getD i false = false ∧ s.getD i false = false := by
  obtain ⟨hlb, rfl, rfl, rfl⟩ := entrySignals_inv cfg pv x y l s e h
  have hsl : (spreadList (betaFilled x y cfg.lookback) x y).length =
      x.length := by
    simp [spreadList, length_betaFilled, hxy]
  have hnan := zscoreAt_nan_of_var_zero _ cfg.lookback i
    (by rw [hsl]; exact hi) h0
  have hzl : i < (zscoreListP cfg x y).length := by
    rw [length_zscoreListP]; exact hi
  have hml : i < (cointMask cfg pv x.length).length := by
    rw [length_cointMask]; omega
  refine ⟨hnan, ?_, ?_⟩
  · rw [longList, zipWith_getD_of_lt _ _ _ i false false false
      (by simpa using hzl) hml, map_getD_pf _ _ i hzl,
      zscoreListP_getD cfg x y i hi, hnan]
    rfl
  · rw [shortList, zipWith_getD_of_lt _ _ _ i false false false
      (by simpa using hzl) hml, map_getD_pf _ _ i hzl,
      zscoreListP_getD cfg x y i hi, hnan]
    rfl

/-- Witness for C8 on the constant-spread scenario. -/
theorem C8_zero_std_nan_no_entry_witness :
    zscoreAt (spreadList (betaFilled [1, 2, 3] [2, 4, 6] 2) [1, 2, 3]
        [2, 4, 6]) 2 1 = .nan
    ∧ List.getD [false, false, false] 1 false = false
    ∧ List.getD [false, false, false] 1 false = false :=
  C8_zero_std_nan_no_entry ⟨2, 2, 1/2, 1/20, 3⟩ (fun _ => 1) [1, 2, 3]
    [2, 4, 6] [false, false, false] [false, false, false] [true, true, true]
    signalsEval123 (by decide) 1 (by decide)
    (by
      rw [spreadEval123]
      norm_num [rollingVarAt, rollWindow, varOpt, allSomeList, meanQ])

/-- **C9** counterexample — with `lookback = 1`, two bars, and a defined
p-value of `0.01 < coint_pval`, the code reports 50% (the undefined leading
index counts as `False` in the boolean mask, and `np.nanmean` finds no NaNs
to skip in a boolean array), while the mean over defined entries only would
be 100%. -/
theorem C9_counterexample :
    cointValidPct (cointMask ⟨1, 2, 1/2, 1/20, 50⟩ (fun _ => 1/100) 2) ≠
      specCointValidPct ⟨1, 2, 1/2, 1/20, 50⟩ (fun _ => 1/100) 2 := by
  have h1 : cointValidPct (cointMask ⟨1, 2, 1/2, 1/20, 50⟩
      (fun _ => 1/100) 2) = some 50 := by
    norm_num [cointValidPct, cointMask, pvalsList, nanmeanQ, roundTo,
      round_eq, List.replicate, List.filterMap_cons, List.filterMap_nil,
      decide_rat_lt_true (show (1 : ℚ)/100 < 1/20 by norm_num),
      List.range_succ]
  have h2 : specCointValidPct ⟨1, 2, 1/2, 1/20, 50⟩ (fun _ => 1/100) 2 =
      some 100 := by
    norm_num [specCointValidPct, roundTo, round_eq, List.range_succ]
  rw [h1, h2]
  intro hc
  exact absurd (Option.some.inj hc) (by norm_num)

theorem sum_indicator_eq_count (mask : List Bool) :
    (mask.map fun b => if b then (1 : ℚ) else 0).sum =
      (mask.count true : ℚ) := by
  induction mask with
  | nil => simp
  | cons b t ih => cases b <;> simp [List.count_cons, ih] <;> ring

theorem filterMap_id_map_some (mask : List Bool) :
    (mask.map fun b => some (if b then (1 : ℚ) else 0)).filterMap id =
      mask.map fun b => if b then (1 : ℚ) else 0 := by
  induction mask with
  | nil => rfl
  | cons b t ih => simp [ih]

/-- **C9** (amended) — the reported `coint_valid_pct` is the mean of the
boolean mask over ALL `n` indices — the undefined leading entries (NaN
p-values) have already become `False` through the `<` comparison, so
`np.nanmean` does not ignore them — scaled to a percentage and rounded to 2
decimals. -/
theorem C9_pct_over_all_entries (cfg : SAConfig) (pv : ℕ → ℚ) (n : ℕ)
    (hn : 0 < n) :
    cointValidPct (cointMask cfg pv n) =
      some (roundTo 2 (((cointMask cfg pv n).count true : ℚ) /
        ((cointMask cfg pv n).length : ℚ) * 100)) := by
  have hlen0 : (cointMask cfg pv n).length ≠ 0 := by
    rw [length_cointMask]
    omega
  rw [cointValidPct, nanmeanQ]
  simp only [filterMap_id_map_some, List.length_map, sum_indicator_eq_count]
  rw [if_neg hlen0, Option.map_some']

/-- Witness for the amended C9. -/
theorem C9_pct_over_all_entries_witness :
    cointValidPct (cointMask ⟨1, 2, 1/2, 1/20, 50⟩ (fun _ => 1/100) 2) =
      some (roundTo 2
        (((cointMask ⟨1, 2, 1/2, 1/20, 50⟩ (fun _ => 1/100) 2).count true : ℚ) /
          ((cointMask ⟨1, 2, 1/2, 1/20, 50⟩ (fun _ => 1/100) 2).length : ℚ) *
            100)) :=
  C9_pct_over_all_entries ⟨1, 2, 1/2, 1/20, 50⟩ (fun _ => 1/100) 2
    (by decide)
